import Mathlib

/-!
Verification of the SFTP synchronizer (`main.py`, `module/files.py`).

Shallow embedding. A local folder is modelled as the list of its direct
entries in `os.listdir` order; each entry records its name, whether
`os.path.isfile` holds for it, and whether `os.remove` would raise for it
(the environment's deletion-failure behaviour). Remote listings are lists
of descriptors `{nombre, size}` as returned by the listing adapter, or
`none` when the adapter reports failure. Logging calls are I/O side
effects and are not part of the pure model.
-/

/-- A direct entry of a local folder: its name, whether it is a regular
file (`os.path.isfile`), and whether attempting `os.remove` on it raises
an exception (environment behaviour, not file content). -/
structure LocalEntry where
  nombre : String
  esFichero : Bool
  falloBorrado : Bool
deriving DecidableEq, Repr

/-- A remote file descriptor as produced by `ListarArchivosSFTPconAtributos`:
the dictionary keys `nombre` and `size` that `main` reads. -/
structure RemoteFile where
  nombre : String
  size : Nat
deriving DecidableEq, Repr

/-- Embedding of `eliminar_antiguos(carpeta, ultimo_fichero)` from
`module/files.py` (lines 71-92). It walks the folder's entries in
`os.listdir` order and removes every regular file whose name differs from
`ultimo_fichero`, counting removals. The single `try/except` wraps the
whole loop, so the first entry whose removal raises stops the scan: that
entry and all later entries are left as they are, and the count
accumulated so far is returned. Returns the remaining entries and the
count. -/
def eliminar_antiguos : List LocalEntry → String → List LocalEntry × Nat
  | [], _ => ([], 0)
  | f :: resto, ultimo_fichero =>
    if f.esFichero && f.nombre != ultimo_fichero then
      if f.falloBorrado then
        (f :: resto, 0)
      else
        let r := eliminar_antiguos resto ultimo_fichero
        (r.1, r.2 + 1)
    else
      let r := eliminar_antiguos resto ultimo_fichero
      (f :: r.1, r.2)

/-- The run statistics accumulated by `main` (the `total_*` and
`carpetas_con_error` variables of `main.py`, lines 104-107). -/
structure Stats where
  descargados : Nat
  bytesDescargados : Nat
  eliminados : Nat
  carpetasConError : Nat
deriving DecidableEq, Repr

/-- Pointwise sum of statistics, modelling the `+=` accumulation in
`main`'s loop. -/
def addStats (a b : Stats) : Stats :=
  ⟨a.descargados + b.descargados, a.bytesDescargados + b.bytesDescargados,
   a.eliminados + b.eliminados, a.carpetasConError + b.carpetasConError⟩

/-- Embedding of one iteration of `main`'s folder loop (`main.py`, lines
110-160), after the remote path has been built. `listado` is the result of
`ListarArchivosSFTPconAtributos`: `none` for `ok = false`, otherwise the
descriptor list sorted newest-first. `descargaOk` is the success flag
`DescargarArchivoSFTP` would return if invoked. `carpeta` is the local
folder's entry list. Returns the folder's entries after the pass together
with this pass's contribution to the run statistics.

- listing failure: warn, count one folder error, `continue` (folder untouched);
- empty listing: nothing to sync, `continue` (folder untouched);
- otherwise `archivos_remotos[0]` is the newest descriptor; the download is
  skipped when `os.path.exists` finds an entry of that name, else it is
  attempted, and on success the file appears in the folder and the byte and
  download counters grow; finally `eliminar_antiguos` prunes the folder. -/
def procesar_carpeta (listado : Option (List RemoteFile)) (descargaOk : Bool)
    (carpeta : List LocalEntry) : List LocalEntry × Stats :=
  match listado with
  | none => (carpeta, ⟨0, 0, 0, 1⟩)
  | some [] => (carpeta, ⟨0, 0, 0, 0⟩)
  | some (archivoReciente :: _) =>
    let nombreFichero := archivoReciente.nombre
    let existe := carpeta.any (fun e => e.nombre == nombreFichero)
    let paso : List LocalEntry × Nat × Nat :=
      if existe then (carpeta, 0, 0)
      else if descargaOk then
        (carpeta ++ [⟨nombreFichero, true, false⟩], 1, archivoReciente.size)
      else (carpeta, 0, 0)
    let res := eliminar_antiguos paso.1 nombreFichero
    (res.1, ⟨paso.2.1, paso.2.2, res.2, 0⟩)

/-- The per-folder inputs of one run: the remote listing the adapter
returns for the folder's mapped path, the success flag a download attempt
would have, and the folder's current entries. -/
structure CarpetaInput where
  listado : Option (List RemoteFile)
  descargaOk : Bool
  carpeta : List LocalEntry
deriving DecidableEq, Repr

/-- Embedding of `main`'s whole folder loop: process each folder in turn
and accumulate the statistics (`main.py`, lines 110-160). Returns the
final entry list of every folder and the summed statistics. -/
def run : List CarpetaInput → List (List LocalEntry) × Stats
  | [] => ([], ⟨0, 0, 0, 0⟩)
  | inp :: resto =>
    ((procesar_carpeta inp.listado inp.descargaOk inp.carpeta).1 :: (run resto).1,
     addStats (procesar_carpeta inp.listado inp.descargaOk inp.carpeta).2 (run resto).2)

/-- The inputs a folder would present to a second run launched right
after a first one with the remote side unchanged: same listing, same
download behaviour, and as local entries the outcome of the first pass. -/
def segundaEntrada (inp : CarpetaInput) : CarpetaInput :=
  { inp with carpeta := (procesar_carpeta inp.listado inp.descargaOk inp.carpeta).1 }

/-- The `.replace("\\", "/")` of `main.py` line 115: every backslash of
the string becomes a forward slash. -/
def replBS (s : String) : String :=
  ⟨s.data.map (fun c => if c = '\\' then '/' else c)⟩

/-- Path components joined into one textual path with the separator
`sep`: the shape in which `os.path.relpath` renders a relative path on a
platform whose separator is `sep`. -/
def joinSep (sep : Char) : List String → String
  | [] => ""
  | [x] => x
  | x :: y :: resto => x ++ String.singleton sep ++ joinSep sep (y :: resto)

/-- Model of `os.path.relpath(carpeta, base)` on path components
(`main.py` line 114): when the folder lies under the base, the folder's
components past the base (`["."]` when they coincide); `none` models the
non-descendant case, which `main`'s discovery never produces. -/
def relpath (carpeta base : List String) : Option (List String) :=
  if base.isPrefixOf carpeta then
    if carpeta.drop base.length = [] then some ["."]
    else some (carpeta.drop base.length)
  else none

/-- Model of `os.path.join(base, rel)` for a relative `rel` on a platform
whose separator is `sep`: a separator is inserted unless the base is
empty or already ends with one of the platform's separators — on a
backslash platform (`ntpath`) both the backslash and the forward slash
count as separators, on a slash platform (`posixpath`) only the slash
does, so the check is against `sep` and against `'/'`. -/
def os_path_join (sep : Char) (base rel : String) : String :=
  if base = "" then rel
  else if base.data.getLast? = some sep ∨ base.data.getLast? = some '/' then
    base ++ rel
  else base ++ String.singleton sep ++ rel

/-- Embedding of the remote-path construction of `main.py` lines 113-115:
the path of the local folder relative to the base directory is joined
onto `directorio_remoto` with the host separator `sep`, and every
backslash of the result is replaced by a forward slash. The folder and
base are given as path components. -/
def ruta_remota (sep : Char) (directorio_remoto : String)
    (carpeta_local base_dir : List String) : Option String :=
  (relpath carpeta_local base_dir).map (fun rel =>
    replBS (os_path_join sep directorio_remoto (joinSep sep rel)))

/-- A local directory tree: the names of the regular files directly
inside, and the named subdirectories. -/
inductive Dir where
  | mk : List String → List (String × Dir) → Dir
deriving Repr

/-- The subdirectory list of a directory. -/
def Dir.subdirs : Dir → List (String × Dir)
  | .mk _ s => s

mutual

/-- Embedding of `listar_subcarpetas(base_path)` from `module/files.py`
(lines 32-47) over a directory tree: `os.walk` visits every directory of
the subtree, and those whose `dirs` list is empty are collected. The path
reported for each visited directory is the given root extended by the
chain of subdirectory names, exactly as `os.walk` builds it from
`base_path`. -/
def listar_subcarpetas (root : String) : Dir → List String
  | .mk _ subdirs =>
    (if subdirs.isEmpty then [root] else []) ++ walk_subdirs root subdirs

/-- The part of the walk that descends into each named subdirectory. -/
def walk_subdirs (root : String) : List (String × Dir) → List String
  | [] => []
  | (nombre, d) :: resto =>
    listar_subcarpetas (root ++ "/" ++ nombre) d ++ walk_subdirs root resto

end

mutual

/-- Every directory of the subtree rooted at a directory, paired with the
path `os.walk` would report for it. -/
def dirs_bajo (root : String) : Dir → List (String × Dir)
  | .mk files subdirs => (root, .mk files subdirs) :: dirs_bajo_lista root subdirs

/-- Every directory of the subtrees rooted at the given subdirectories. -/
def dirs_bajo_lista (root : String) : List (String × Dir) → List (String × Dir)
  | [] => []
  | (nombre, d) :: resto =>
    dirs_bajo (root ++ "/" ++ nombre) d ++ dirs_bajo_lista root resto

end

mutual

/-- Height of a directory tree, used to recurse over trees in proofs. -/
def profundidad : Dir → Nat
  | .mk _ subdirs => profundidad_lista subdirs + 1

/-- Height of a list of subtrees. -/
def profundidad_lista : List (String × Dir) → Nat
  | [] => 0
  | (_, d) :: resto => max (profundidad d) (profundidad_lista resto)

end

/-- Model of `os.path.isabs` for POSIX-style paths: a path is absolute
iff its first character is a slash. -/
def es_absoluta (p : String) : Bool := p.data.head? = some '/'


/-- Claim C1: with no deletion failures, `eliminar_antiguos` deletes
exactly the regular files directly inside the folder whose name differs
from `keep`, returns their count, leaves directories and any entry named
`keep` untouched, and hence leaves no regular file other than ones named
`keep` (so when no such file existed, every regular file is deleted). -/
theorem eliminar_antiguos_deletes_exactly_stale (l : List LocalEntry) (keep : String)
    (h : ∀ e ∈ l, e.falloBorrado = false) :
    (eliminar_antiguos l keep).2
      = (l.filter (fun e => e.esFichero && e.nombre != keep)).length ∧
    (eliminar_antiguos l keep).1
      = l.filter (fun e => !(e.esFichero && e.nombre != keep)) ∧
    ∀ e ∈ (eliminar_antiguos l keep).1, e.esFichero = true → e.nombre = keep := by
  induction l with
  | nil => simp [eliminar_antiguos]
  | cons f resto ih =>
    have hf : f.falloBorrado = false := h f (by simp)
    obtain ⟨ih1, ih2, ih3⟩ := ih (fun e he => h e (by simp [he]))
    by_cases hc : (f.esFichero && f.nombre != keep) = true
    · have hun : eliminar_antiguos (f :: resto) keep
          = ((eliminar_antiguos resto keep).1, (eliminar_antiguos resto keep).2 + 1) := by
        simp [eliminar_antiguos, hc, hf]
      have hfil1 : List.filter (fun e => e.esFichero && e.nombre != keep) (f :: resto)
          = f :: List.filter (fun e => e.esFichero && e.nombre != keep) resto := by
        rw [List.filter_cons]; simp [hc]
      have hfil2 : List.filter (fun e => !(e.esFichero && e.nombre != keep)) (f :: resto)
          = List.filter (fun e => !(e.esFichero && e.nombre != keep)) resto := by
        rw [List.filter_cons]; simp [hc]
      refine ⟨?_, ?_, ?_⟩
      · rw [hun, hfil1]; simpa using ih1
      · rw [hun, hfil2]; exact ih2
      · rw [hun]; exact ih3
    · have hcf : (f.esFichero && f.nombre != keep) = false := by simpa using hc
      have hun : eliminar_antiguos (f :: resto) keep
          = (f :: (eliminar_antiguos resto keep).1, (eliminar_antiguos resto keep).2) := by
        simp [eliminar_antiguos, hcf]
      have hfil1 : List.filter (fun e => e.esFichero && e.nombre != keep) (f :: resto)
          = List.filter (fun e => e.esFichero && e.nombre != keep) resto := by
        rw [List.filter_cons]; simp [hcf]
      have hfil2 : List.filter (fun e => !(e.esFichero && e.nombre != keep)) (f :: resto)
          = f :: List.filter (fun e => !(e.esFichero && e.nombre != keep)) resto := by
        rw [List.filter_cons]; simp [hcf]
      refine ⟨?_, ?_, ?_⟩
      · rw [hun, hfil1]; exact ih1
      · rw [hun, hfil2]; rw [ih2]
      · rw [hun]
        intro e he
        simp only [List.mem_cons] at he
        rcases he with rfl | he
        · intro hef
          rcases Bool.and_eq_false_iff.mp hcf with h1 | h1
          · rw [hef] at h1; cases h1
          · simpa using h1
        · exact ih3 e he

/-- Witness for claim C1 at a concrete folder: a stale file `a`, the kept
file `k` and a directory `d`. -/
theorem eliminar_antiguos_deletes_exactly_stale_witness :
    (eliminar_antiguos [⟨"a", true, false⟩, ⟨"k", true, false⟩, ⟨"d", false, false⟩] "k").2
      = (([⟨"a", true, false⟩, ⟨"k", true, false⟩, ⟨"d", false, false⟩] :
          List LocalEntry).filter (fun e => e.esFichero && e.nombre != "k")).length ∧
    (eliminar_antiguos [⟨"a", true, false⟩, ⟨"k", true, false⟩, ⟨"d", false, false⟩] "k").1
      = ([⟨"a", true, false⟩, ⟨"k", true, false⟩, ⟨"d", false, false⟩] :
          List LocalEntry).filter (fun e => !(e.esFichero && e.nombre != "k")) ∧
    ∀ e ∈ (eliminar_antiguos
        [⟨"a", true, false⟩, ⟨"k", true, false⟩, ⟨"d", false, false⟩] "k").1,
      e.esFichero = true → e.nombre = "k" :=
  eliminar_antiguos_deletes_exactly_stale
    [⟨"a", true, false⟩, ⟨"k", true, false⟩, ⟨"d", false, false⟩] "k" (by decide)

/-- Counterexample to claim C2: in the folder `[a (fails to delete), b]`
with keep name `k`, the failed deletion of `a` ends the scan, so the stale
regular file `b` that comes after the failing entry is never deleted and
the returned count is `0` — pruning does not continue with the remaining
entries. -/
theorem eliminar_antiguos_no_continua_tras_fallo :
    eliminar_antiguos [⟨"a", true, true⟩, ⟨"b", true, false⟩] "k"
      = ([⟨"a", true, true⟩, ⟨"b", true, false⟩], 0) ∧
    (⟨"b", true, false⟩ : LocalEntry)
      ∈ (eliminar_antiguos [⟨"a", true, true⟩, ⟨"b", true, false⟩] "k").1 := by
  decide

/-- Claim C2 as amended: a deletion failure on one entry is caught (the
call still returns normally), but it aborts the scan of that folder: the
entries strictly before the first failing stale entry are processed as
usual, the failing entry and everything after it are left untouched, and
the returned count is the number of deletions made before the failure. -/
theorem eliminar_antiguos_failure_aborts_scan (l1 l2 : List LocalEntry)
    (e : LocalEntry) (keep : String)
    (h1 : ∀ x ∈ l1, x.falloBorrado = false)
    (h2 : e.esFichero = true) (h3 : e.nombre ≠ keep) (h4 : e.falloBorrado = true) :
    eliminar_antiguos (l1 ++ e :: l2) keep
      = (l1.filter (fun x => !(x.esFichero && x.nombre != keep)) ++ e :: l2,
         (l1.filter (fun x => x.esFichero && x.nombre != keep)).length) := by
  induction l1 with
  | nil =>
    have hce : (e.esFichero && e.nombre != keep) = true := by simp [h2, h3]
    simp [eliminar_antiguos, hce, h4]
  | cons f resto ih =>
    have hf : f.falloBorrado = false := h1 f (by simp)
    have ihr := ih (fun x hx => h1 x (by simp [hx]))
    by_cases hc : (f.esFichero && f.nombre != keep) = true
    · have hun : eliminar_antiguos (f :: (resto ++ e :: l2)) keep
          = ((eliminar_antiguos (resto ++ e :: l2) keep).1,
             (eliminar_antiguos (resto ++ e :: l2) keep).2 + 1) := by
        simp [eliminar_antiguos, hc, hf]
      rw [List.cons_append, hun, ihr]
      rw [List.filter_cons, List.filter_cons]
      simp [hc]
    · have hcf : (f.esFichero && f.nombre != keep) = false := by simpa using hc
      have hun : eliminar_antiguos (f :: (resto ++ e :: l2)) keep
          = (f :: (eliminar_antiguos (resto ++ e :: l2) keep).1,
             (eliminar_antiguos (resto ++ e :: l2) keep).2) := by
        simp [eliminar_antiguos, hcf]
      rw [List.cons_append, hun, ihr]
      rw [List.filter_cons, List.filter_cons]
      simp [hcf]

/-- Witness for the amended claim C2: in `[x, a (fails), b]` with keep
name `k`, the stale file `x` before the failure is deleted and counted,
while `a` and `b` remain. -/
theorem eliminar_antiguos_failure_aborts_scan_witness :
    eliminar_antiguos [⟨"x", true, false⟩, ⟨"a", true, true⟩, ⟨"b", true, false⟩] "k"
      = ([⟨"a", true, true⟩, ⟨"b", true, false⟩], 1) := by
  have h := eliminar_antiguos_failure_aborts_scan
    [⟨"x", true, false⟩] [⟨"b", true, false⟩] ⟨"a", true, true⟩ "k"
    (by decide) rfl (by decide) rfl
  rw [List.singleton_append] at h
  rw [h]
  decide

/-- Claim C3: when the newest remote file is not present locally and the
download adapter returns `ok = false`, the pass contributes no download,
no bytes and no folder error, and the pruner is still invoked on the
folder with the newest remote file's name (the folder ends up pruned and
the deletion count is added). -/
theorem download_failure_does_not_block_prune (r : RemoteFile)
    (resto : List RemoteFile) (f : List LocalEntry)
    (h : ∀ e ∈ f, e.nombre ≠ r.nombre) :
    procesar_carpeta (some (r :: resto)) false f
      = ((eliminar_antiguos f r.nombre).1,
         ⟨0, 0, (eliminar_antiguos f r.nombre).2, 0⟩) := by
  have hex : (f.any (fun e => e.nombre == r.nombre)) = false := by
    rw [List.any_eq_false]
    intro e he
    simpa using h e he
  simp [procesar_carpeta, hex]

/-- Witness for claim C3: the folder `[a]`, newest remote file `b`, failed
download — the stale file `a` is still pruned and no folder error is
counted. -/
theorem download_failure_does_not_block_prune_witness :
    procesar_carpeta (some [⟨"b", 5⟩]) false [⟨"a", true, false⟩]
      = ((eliminar_antiguos [⟨"a", true, false⟩] "b").1,
         ⟨0, 0, (eliminar_antiguos [⟨"a", true, false⟩] "b").2, 0⟩) :=
  download_failure_does_not_block_prune ⟨"b", 5⟩ [] [⟨"a", true, false⟩] (by decide)

/-- Claim C4: with a non-empty successful listing, (a) when an entry with
the newest descriptor's name already exists locally the download adapter
is never invoked — the pass does not depend on what a download would have
returned and the download counter stays `0` (the check is by name only);
(b) when no such entry exists and the invoked download returns
`ok = true`, the download counter grows by exactly `1` and the byte
counter by the descriptor's reported `size` field. -/
theorem download_skip_and_counters (r : RemoteFile) (resto : List RemoteFile)
    (f : List LocalEntry) (dOk : Bool) :
    ((∃ e ∈ f, e.nombre = r.nombre) →
       procesar_carpeta (some (r :: resto)) dOk f
         = procesar_carpeta (some (r :: resto)) false f ∧
       (procesar_carpeta (some (r :: resto)) dOk f).2.descargados = 0) ∧
    ((∀ e ∈ f, e.nombre ≠ r.nombre) →
       (procesar_carpeta (some (r :: resto)) true f).2.descargados = 1 ∧
       (procesar_carpeta (some (r :: resto)) true f).2.bytesDescargados = r.size) := by
  constructor
  · intro hex
    have hx : (f.any (fun e => e.nombre == r.nombre)) = true := by
      rw [List.any_eq_true]
      obtain ⟨e, he, hn⟩ := hex
      exact ⟨e, he, by simpa using hn⟩
    constructor
    · simp [procesar_carpeta, hx]
    · simp [procesar_carpeta, hx]
  · intro hne
    have hx : (f.any (fun e => e.nombre == r.nombre)) = false := by
      rw [List.any_eq_false]
      intro e he
      simpa using hne e he
    constructor
    · simp [procesar_carpeta, hx]
    · simp [procesar_carpeta, hx]

/-- Witness for claim C4: with newest remote file `b` of size 5, a folder
already holding `b` skips the download (same outcome as a failing
adapter, `0` downloads), and a folder holding only `a` downloads it,
counting one file and 5 bytes. -/
theorem download_skip_and_counters_witness :
    (procesar_carpeta (some [⟨"b", 5⟩]) true [⟨"b", true, false⟩]
       = procesar_carpeta (some [⟨"b", 5⟩]) false [⟨"b", true, false⟩] ∧
     (procesar_carpeta (some [⟨"b", 5⟩]) true [⟨"b", true, false⟩]).2.descargados = 0) ∧
    ((procesar_carpeta (some [⟨"b", 5⟩]) true [⟨"a", true, false⟩]).2.descargados = 1 ∧
     (procesar_carpeta (some [⟨"b", 5⟩]) true [⟨"a", true, false⟩]).2.bytesDescargados
       = 5) :=
  ⟨(download_skip_and_counters ⟨"b", 5⟩ [] [⟨"b", true, false⟩] true).1
      ⟨⟨"b", true, false⟩, by decide, rfl⟩,
   (download_skip_and_counters ⟨"b", 5⟩ [] [⟨"a", true, false⟩] true).2 (by decide)⟩

/-- Claim C5: a folder whose remote listing fails (`ok = false`)
contributes exactly one folder error, no download, no bytes and no
deletion, its entries are untouched, and the run continues with the
remaining folders whose results are accumulated as usual. -/
theorem listing_failure_counts_error_and_continues (d : Bool)
    (f : List LocalEntry) (resto : List CarpetaInput) :
    run ({ listado := none, descargaOk := d, carpeta := f } :: resto)
      = (f :: (run resto).1, addStats ⟨0, 0, 0, 1⟩ (run resto).2) := by
  simp [run, procesar_carpeta]

/-- Claim C6: with a non-empty successful listing the pass depends only on
element 0 of the descriptor sequence (the newest file) — the tail is
never consulted; with an empty successful listing the folder is skipped
untouched, with no download, no prune and no error. -/
theorem freshness_selector_first_element (r : RemoteFile)
    (resto : List RemoteFile) (dOk : Bool) (f : List LocalEntry) :
    procesar_carpeta (some (r :: resto)) dOk f
      = procesar_carpeta (some [r]) dOk f ∧
    procesar_carpeta (some []) dOk f = (f, ⟨0, 0, 0, 0⟩) :=
  ⟨rfl, rfl⟩

/-- Mapping a backslash-free character list through the backslash
replacement is the identity. -/
theorem map_noop_of_no_backslash (l : List Char) (h : '\\' ∉ l) :
    l.map (fun c => if c = '\\' then '/' else c) = l := by
  induction l with
  | nil => rfl
  | cons c resto ih =>
    have hc : c ≠ '\\' := fun hcc => h (by simp [hcc])
    simp only [List.map_cons, if_neg hc]
    rw [ih (fun hm => h (by simp [hm]))]

/-- The backslash replacement distributes over string concatenation. -/
theorem replBS_append (a b : String) : replBS (a ++ b) = replBS a ++ replBS b := by
  show String.mk _ = _
  rw [show (a ++ b).data = a.data ++ b.data from rfl, List.map_append]
  rfl

/-- The backslash replacement fixes a backslash-free string. -/
theorem replBS_of_no_backslash (s : String) (h : '\\' ∉ s.data) : replBS s = s := by
  show String.mk _ = s
  rw [map_noop_of_no_backslash s.data h]

/-- The backslash replacement sends either host separator to a slash. -/
theorem replBS_sep (sep : Char) (h : sep = '/' ∨ sep = '\\') :
    replBS (String.singleton sep) = "/" := by
  rcases h with rfl | rfl <;> rfl

/-- Replacing backslashes in a path joined with either host separator
yields the path joined with forward slashes. -/
theorem replBS_joinSep (sep : Char) (hsep : sep = '/' ∨ sep = '\\')
    (rel : List String) (hcomp : ∀ c ∈ rel, '\\' ∉ c.data) :
    replBS (joinSep sep rel) = joinSep '/' rel := by
  induction rel with
  | nil => rfl
  | cons x resto ih =>
    cases resto with
    | nil =>
      simp only [joinSep]
      exact replBS_of_no_backslash x (hcomp x (by simp))
    | cons y t =>
      simp only [joinSep]
      rw [replBS_append, replBS_append,
          replBS_of_no_backslash x (hcomp x (by simp)),
          replBS_sep sep hsep,
          ih (fun c hc => hcomp c (by simp [List.mem_cons] at hc ⊢; tauto))]
      rfl

/-- The last element of a list is one of its elements. -/
theorem mem_of_getLast_eq_some (l : List Char) (c : Char)
    (h : l.getLast? = some c) : c ∈ l := by
  obtain ⟨hne, heq⟩ :=
    List.mem_getLast?_eq_getLast (show c ∈ l.getLast? by rw [h]; rfl)
  rw [heq]
  exact List.getLast_mem hne

/-- Claim C7: for a local folder lying under the local root (components
`base ++ rel` with `rel` nonempty and backslash-free) and a backslash-free
remote root, the computed remote path is the forward-slash join of the
remote root and the folder's path relative to the root written with
forward slashes (no separator added when the root already ends in one) —
the same string whether the host separator is `/` or a backslash. -/
theorem ruta_remota_slash_normalized (sep : Char) (remoto : String)
    (base rel : List String)
    (hsep : sep = '/' ∨ sep = '\\')
    (hr1 : '\\' ∉ remoto.data)
    (hr2 : remoto ≠ "")
    (hrel : rel ≠ [])
    (hcomp : ∀ c ∈ rel, '\\' ∉ c.data) :
    ruta_remota sep remoto (base ++ rel) base
      = some (os_path_join '/' remoto (joinSep '/' rel)) := by
  have hpre : base.isPrefixOf (base ++ rel) = true :=
    List.isPrefixOf_iff_prefix.mpr (List.prefix_append base rel)
  have hdrop : (base ++ rel).drop base.length = rel := List.drop_left base rel
  have hrp : relpath (base ++ rel) base = some rel := by
    rw [relpath, if_pos hpre, hdrop, if_neg hrel]
  rw [ruta_remota, hrp, Option.map_some']
  congr 1
  by_cases hlast : remoto.data.getLast? = some '/'
  · have hL : os_path_join sep remoto (joinSep sep rel)
        = remoto ++ joinSep sep rel := by
      rw [os_path_join, if_neg hr2, if_pos (Or.inr hlast)]
    have hR : os_path_join '/' remoto (joinSep '/' rel)
        = remoto ++ joinSep '/' rel := by
      rw [os_path_join, if_neg hr2, if_pos (Or.inl hlast)]
    rw [hL, hR, replBS_append,
        replBS_of_no_backslash remoto hr1,
        replBS_joinSep sep hsep rel hcomp]
  · have hsepne : ¬ remoto.data.getLast? = some sep := by
      rcases hsep with rfl | rfl
      · exact hlast
      · intro hbs
        exact hr1 (mem_of_getLast_eq_some remoto.data '\\' hbs)
    have hL : os_path_join sep remoto (joinSep sep rel)
        = remoto ++ String.singleton sep ++ joinSep sep rel := by
      rw [os_path_join, if_neg hr2, if_neg (not_or.mpr ⟨hsepne, hlast⟩)]
    have hR : os_path_join '/' remoto (joinSep '/' rel)
        = remoto ++ String.singleton '/' ++ joinSep '/' rel := by
      rw [os_path_join, if_neg hr2, if_neg (not_or.mpr ⟨hlast, hlast⟩)]
    rw [hL, hR, replBS_append, replBS_append,
        replBS_of_no_backslash remoto hr1,
        replBS_sep sep hsep,
        replBS_joinSep sep hsep rel hcomp]
    rfl

/-- Witness for claim C7: local root `/a` (components `["", "a"]`) and
local folder `/a/b/c`. With remote root `/r` the mapping yields `/r/b/c`
on a backslash host and on a slash host alike; with the default remote
root `/`, which already ends in a separator, a backslash host yields
`/b/c` with no doubled slash. -/
theorem ruta_remota_slash_normalized_witness :
    ruta_remota '\\' "/r" (["", "a"] ++ ["b", "c"]) ["", "a"] = some "/r/b/c" ∧
    ruta_remota '/' "/r" (["", "a"] ++ ["b", "c"]) ["", "a"] = some "/r/b/c" ∧
    ruta_remota '\\' "/" (["", "a"] ++ ["b", "c"]) ["", "a"] = some "/b/c" := by
  refine ⟨?_, ?_, ?_⟩
  · rw [ruta_remota_slash_normalized '\\' "/r" ["", "a"] ["b", "c"] (Or.inr rfl)
        (by decide) (by decide) (by decide) (by decide)]
    rfl
  · rw [ruta_remota_slash_normalized '/' "/r" ["", "a"] ["b", "c"] (Or.inl rfl)
        (by decide) (by decide) (by decide) (by decide)]
    rfl
  · rw [ruta_remota_slash_normalized '\\' "/" ["", "a"] ["b", "c"] (Or.inr rfl)
        (by decide) (by decide) (by decide) (by decide)]
    rfl

/-- A path is produced by the subdirectory part of the walk exactly when
some named subdirectory's subtree produces it. -/
theorem mem_walk_subdirs (root p : String) (subs : List (String × Dir)) :
    p ∈ walk_subdirs root subs
      ↔ ∃ n d, (n, d) ∈ subs ∧ p ∈ listar_subcarpetas (root ++ "/" ++ n) d := by
  induction subs with
  | nil => simp [walk_subdirs]
  | cons hd resto ih =>
    obtain ⟨n0, d0⟩ := hd
    simp only [walk_subdirs, List.mem_append, ih, List.mem_cons, Prod.mk.injEq]
    constructor
    · rintro (h | ⟨n, d, hmem, hp⟩)
      · exact ⟨n0, d0, Or.inl ⟨rfl, rfl⟩, h⟩
      · exact ⟨n, d, Or.inr hmem, hp⟩
    · rintro ⟨n, d, (⟨rfl, rfl⟩ | hmem), hp⟩
      · exact Or.inl hp
      · exact Or.inr ⟨n, d, hmem, hp⟩

/-- A path-directory pair lies under the given subdirectories exactly
when it lies under one of them. -/
theorem mem_dirs_bajo_lista (root p : String) (s : Dir) (subs : List (String × Dir)) :
    (p, s) ∈ dirs_bajo_lista root subs
      ↔ ∃ n d, (n, d) ∈ subs ∧ (p, s) ∈ dirs_bajo (root ++ "/" ++ n) d := by
  induction subs with
  | nil => simp [dirs_bajo_lista]
  | cons hd resto ih =>
    obtain ⟨n0, d0⟩ := hd
    simp only [dirs_bajo_lista, List.mem_append, ih, List.mem_cons, Prod.mk.injEq]
    constructor
    · rintro (h | ⟨n, d, hmem, hp⟩)
      · exact ⟨n0, d0, Or.inl ⟨rfl, rfl⟩, h⟩
      · exact ⟨n, d, Or.inr hmem, hp⟩
    · rintro ⟨n, d, (⟨rfl, rfl⟩ | hmem), hp⟩
      · exact Or.inl hp
      · exact Or.inr ⟨n, d, hmem, hp⟩

/-- A subdirectory's subtree is lower than its parent's. -/
theorem profundidad_lt_of_mem (n : String) (d : Dir) (files : List String)
    (subs : List (String × Dir)) (h : (n, d) ∈ subs) :
    profundidad d < profundidad (.mk files subs) := by
  have hle : profundidad d ≤ profundidad_lista subs := by
    induction subs with
    | nil => cases h
    | cons hd resto ih =>
      obtain ⟨m, c⟩ := hd
      rcases List.mem_cons.mp h with heq | hmem
      · obtain ⟨-, rfl⟩ := Prod.mk.injEq .. ▸ heq
        exact le_trans (le_refl _) (le_max_left _ _)
      · exact le_trans (ih hmem) (le_max_right _ _)
  simp only [profundidad]
  omega

/-- The walk membership equivalence, proved by recursion on a bound on
the tree's height. -/
theorem walk_aux (N : Nat) : ∀ d : Dir, profundidad d ≤ N → ∀ root p : String,
    (p ∈ listar_subcarpetas root d
      ↔ ∃ sub : Dir, (p, sub) ∈ dirs_bajo root d ∧ sub.subdirs = []) := by
  induction N with
  | zero =>
    intro d hd
    obtain ⟨files, subs⟩ := d
    simp [profundidad] at hd
  | succ N ih =>
    intro d hd root p
    obtain ⟨files, subs⟩ := d
    constructor
    · intro hp
      simp only [listar_subcarpetas, List.mem_append] at hp
      rcases hp with hp | hp
      · have hsubs : subs = [] := by
          by_cases he : subs.isEmpty
          · exact List.isEmpty_iff.mp he
          · simp [he] at hp
        subst hsubs
        have hroot : p = root := by simpa using hp
        subst hroot
        exact ⟨.mk files [], by simp [dirs_bajo], rfl⟩
      · obtain ⟨n, c, hmem, hp'⟩ := (mem_walk_subdirs root p subs).mp hp
        have hc : profundidad c ≤ N := by
          have := profundidad_lt_of_mem n c files subs hmem
          omega
        obtain ⟨sub, hin, hterm⟩ := (ih c hc (root ++ "/" ++ n) p).mp hp'
        refine ⟨sub, ?_, hterm⟩
        simp only [dirs_bajo, List.mem_cons]
        exact Or.inr ((mem_dirs_bajo_lista root p sub subs).mpr ⟨n, c, hmem, hin⟩)
    · rintro ⟨sub, hin, hterm⟩
      simp only [dirs_bajo, List.mem_cons, Prod.mk.injEq] at hin
      rcases hin with ⟨rfl, rfl⟩ | hin
      · have hsubs : subs = [] := hterm
        subst hsubs
        simp [listar_subcarpetas]
      · obtain ⟨n, c, hmem, hin'⟩ := (mem_dirs_bajo_lista root p sub subs).mp hin
        have hc : profundidad c ≤ N := by
          have := profundidad_lt_of_mem n c files subs hmem
          omega
        have hp' : p ∈ listar_subcarpetas (root ++ "/" ++ n) c :=
          (ih c hc (root ++ "/" ++ n) p).mpr ⟨sub, hin', hterm⟩
        simp only [listar_subcarpetas, List.mem_append]
        exact Or.inr ((mem_walk_subdirs root p subs).mpr ⟨n, c, hmem, hp'⟩)

/-- Claim C8: a path is returned by the discovery over the tree rooted at
`root` exactly when it is the path of a directory of that subtree (the
root itself included) with zero child directories — so folders with only
files and empty folders qualify, and no directory with a child directory
is ever returned. -/
theorem listar_subcarpetas_exactly_terminal (d : Dir) (root p : String) :
    p ∈ listar_subcarpetas root d
      ↔ ∃ sub : Dir, (p, sub) ∈ dirs_bajo root d ∧ sub.subdirs = [] :=
  walk_aux (profundidad d) d le_rfl root p

/-- Claim C9 fails on the code: `os.walk` reports the root path exactly
as it was given, so for the relative root `rel` (a terminal folder
holding one file) the discovery returns the relative path `rel`, not an
absolute path — contradicting the function's docstring, which promises
absolute paths. -/
theorem listar_subcarpetas_keeps_relative_root :
    listar_subcarpetas "rel" (Dir.mk ["f.txt"] []) = ["rel"] ∧
    es_absoluta "rel" = false :=
  ⟨rfl, rfl⟩

/-- Pruning never removes an entry carrying the kept name: if the folder
has one, it still has one afterwards. -/
theorem eliminar_antiguos_preserva_nombre (l : List LocalEntry) (k : String)
    (h : l.any (fun e => e.nombre == k) = true) :
    ((eliminar_antiguos l k).1).any (fun e => e.nombre == k) = true := by
  induction l with
  | nil => simp at h
  | cons f resto ih =>
    rw [List.any_cons] at h
    by_cases hc : (f.esFichero && f.nombre != k) = true
    · have hfk : (f.nombre == k) = false := by
        rcases Bool.and_eq_true_iff.mp hc with ⟨_, h2⟩
        simpa using h2
      have hr : resto.any (fun e => e.nombre == k) = true := by
        rcases Bool.or_eq_true_iff.mp h with h1 | h1
        · rw [hfk] at h1; cases h1
        · exact h1
      by_cases hfb : f.falloBorrado = true
      · have hun : eliminar_antiguos (f :: resto) k = (f :: resto, 0) := by
          simp [eliminar_antiguos, hc, hfb]
        rw [hun, List.any_cons]
        exact Bool.or_eq_true_iff.mpr (Or.inr hr)
      · have hfb' : f.falloBorrado = false := by simpa using hfb
        have hun : eliminar_antiguos (f :: resto) k
            = ((eliminar_antiguos resto k).1, (eliminar_antiguos resto k).2 + 1) := by
          simp [eliminar_antiguos, hc, hfb']
        rw [hun]
        exact ih hr
    · have hcf : (f.esFichero && f.nombre != k) = false := by simpa using hc
      have hun : eliminar_antiguos (f :: resto) k
          = (f :: (eliminar_antiguos resto k).1, (eliminar_antiguos resto k).2) := by
        simp [eliminar_antiguos, hcf]
      rw [hun, List.any_cons]
      rcases Bool.or_eq_true_iff.mp h with h1 | h1
      · exact Bool.or_eq_true_iff.mpr (Or.inl h1)
      · exact Bool.or_eq_true_iff.mpr (Or.inr (ih h1))

/-- Pruning an already pruned folder removes nothing and counts zero. -/
theorem eliminar_antiguos_idempotente (l : List LocalEntry) (k : String) :
    eliminar_antiguos (eliminar_antiguos l k).1 k = ((eliminar_antiguos l k).1, 0) := by
  induction l with
  | nil => simp [eliminar_antiguos]
  | cons f resto ih =>
    by_cases hc : (f.esFichero && f.nombre != k) = true
    · by_cases hfb : f.falloBorrado = true
      · have hun : eliminar_antiguos (f :: resto) k = (f :: resto, 0) := by
          simp [eliminar_antiguos, hc, hfb]
        rw [hun]
        simp [eliminar_antiguos, hc, hfb]
      · have hfb' : f.falloBorrado = false := by simpa using hfb
        have hun : eliminar_antiguos (f :: resto) k
            = ((eliminar_antiguos resto k).1, (eliminar_antiguos resto k).2 + 1) := by
          simp [eliminar_antiguos, hc, hfb']
        rw [hun]
        exact ih
    · have hcf : (f.esFichero && f.nombre != k) = false := by simpa using hc
      have hun : eliminar_antiguos (f :: resto) k
          = (f :: (eliminar_antiguos resto k).1, (eliminar_antiguos resto k).2) := by
        simp [eliminar_antiguos, hcf]
      rw [hun]
      have hun2 : eliminar_antiguos (f :: (eliminar_antiguos resto k).1) k
          = (f :: (eliminar_antiguos (eliminar_antiguos resto k).1 k).1,
             (eliminar_antiguos (eliminar_antiguos resto k).1 k).2) := by
        simp [eliminar_antiguos, hcf]
      rw [hun2, ih]

/-- Re-processing a folder that, after a first pass, holds an entry with
the newest remote file's name performs no download, no deletion and the
same folder-error behaviour, and leaves its entries untouched. -/
theorem procesar_carpeta_idempotente (L : Option (List RemoteFile)) (d d2 : Bool)
    (f : List LocalEntry)
    (h : ∀ r resto, L = some (r :: resto) →
        ((procesar_carpeta L d f).1).any (fun e => e.nombre == r.nombre) = true) :
    procesar_carpeta L d2 (procesar_carpeta L d f).1
      = ((procesar_carpeta L d f).1,
         ⟨0, 0, 0, (procesar_carpeta L d f).2.carpetasConError⟩) := by
  match L with
  | none => simp [procesar_carpeta]
  | some [] => simp [procesar_carpeta]
  | some (r :: resto) =>
    have hex2 := h r resto rfl
    have hX : ∃ X, (procesar_carpeta (some (r :: resto)) d f).1
        = (eliminar_antiguos X r.nombre).1 := by
      by_cases hx : (f.any (fun e => e.nombre == r.nombre)) = true
      · exact ⟨f, by simp [procesar_carpeta, hx]⟩
      · have hx' : (f.any (fun e => e.nombre == r.nombre)) = false := by simpa using hx
        by_cases hd : d = true
        · exact ⟨f ++ [⟨r.nombre, true, false⟩], by simp [procesar_carpeta, hx', hd]⟩
        · have hd' : d = false := by simpa using hd
          exact ⟨f, by simp [procesar_carpeta, hx', hd']⟩
    obtain ⟨X, hXeq⟩ := hX
    have hprune : eliminar_antiguos (procesar_carpeta (some (r :: resto)) d f).1 r.nombre
        = ((procesar_carpeta (some (r :: resto)) d f).1, 0) := by
      rw [hXeq]
      exact eliminar_antiguos_idempotente X r.nombre
    have herr : (procesar_carpeta (some (r :: resto)) d f).2.carpetasConError = 0 := by
      by_cases hx : (f.any (fun e => e.nombre == r.nombre)) = true
      · simp [procesar_carpeta, hx]
      · have hx' : (f.any (fun e => e.nombre == r.nombre)) = false := by simpa using hx
        by_cases hd : d = true
        · simp [procesar_carpeta, hx', hd]
        · have hd' : d = false := by simpa using hd
          simp [procesar_carpeta, hx', hd']
    rw [herr]
    conv_lhs => rw [procesar_carpeta]
    simp only [hex2, if_true, hprune]

/-- Claim C10: when the remote side is unchanged and the first run left
each folder (among those with a newest remote file) holding an entry with
that file's name, a second run performs zero downloads, transfers zero
bytes, deletes zero files, repeats only the listing failures, and leaves
every folder's contents exactly as the first run left them. -/
theorem second_run_changes_nothing (inputs : List CarpetaInput)
    (h : ∀ inp ∈ inputs, ∀ r resto, inp.listado = some (r :: resto) →
        ((procesar_carpeta inp.listado inp.descargaOk inp.carpeta).1).any
          (fun e => e.nombre == r.nombre) = true) :
    run (inputs.map segundaEntrada)
      = ((run inputs).1, ⟨0, 0, 0, (run inputs).2.carpetasConError⟩) := by
  induction inputs with
  | nil => simp [run]
  | cons inp resto ih =>
    have hinp := h inp (by simp)
    have ihr := ih (fun x hx => h x (by simp [hx]))
    have hstep := procesar_carpeta_idempotente inp.listado inp.descargaOk
      inp.descargaOk inp.carpeta hinp
    rw [List.map_cons]
    rw [run]
    rw [show (segundaEntrada inp).listado = inp.listado from rfl,
        show (segundaEntrada inp).descargaOk = inp.descargaOk from rfl,
        show (segundaEntrada inp).carpeta
          = (procesar_carpeta inp.listado inp.descargaOk inp.carpeta).1 from rfl]
    rw [hstep, ihr]
    rw [show run (inp :: resto)
        = ((procesar_carpeta inp.listado inp.descargaOk inp.carpeta).1 :: (run resto).1,
           addStats (procesar_carpeta inp.listado inp.descargaOk inp.carpeta).2
             (run resto).2) from rfl]
    simp [addStats]

/-- Witness for claim C10: one folder holding `a`, remote listing with
newest file `b`, a succeeding download — the first run ends with the
folder holding `b`, and the second run repeats with no downloads and no
deletions. -/
theorem second_run_changes_nothing_witness :
    run ([⟨some [⟨"b", 5⟩], true, [⟨"a", true, false⟩]⟩].map segundaEntrada)
      = ((run [⟨some [⟨"b", 5⟩], true, [⟨"a", true, false⟩]⟩]).1,
         ⟨0, 0, 0,
          (run [⟨some [⟨"b", 5⟩], true,
            [⟨"a", true, false⟩]⟩]).2.carpetasConError⟩) := by
  apply second_run_changes_nothing
  intro inp hinp r resto heq
  simp only [List.mem_singleton] at hinp
  subst hinp
  have h1 : (⟨"b", 5⟩ : RemoteFile) = r ∧ ([] : List RemoteFile) = resto := by
    simpa using heq
  rw [← h1.1]
  decide
